import Mathlib

/-!
# Verification of the ptx_tests conformance tester

A shallow embedding of the core of `ptx_tests` (a differential conformance
tester for PTX opcodes) together with proofs about its test-generation and
verification logic.

Embedded components:
* IEEE-754 binary32 values as bit patterns with exact rational semantics,
  plus round-to-nearest-even conversions (`encF32`, `roundF64`).  All
  floating-point quantities compared by the verifier are modelled by exact
  rationals; at every magnitude where a comparison against the sine
  tolerance can change outcome the `f64` arithmetic performed by the code
  is exact, so the model coincides with the code there.
* the sine test's host verifier (`src/testcase/sin.rs`),
* the 16-bit shift tests' host verifiers (`src/testcase/shift.rs`),
* the inline-PTX source generator and the NVRTC build step of the
  "Compiled" backend (`src/testcase/mod.rs`),
* the CLI driver loop (`src/main.rs`).

Rationals are represented by unnormalised integer fractions (`Q`) with
positive denominators, so that every arithmetic step is plain `Int`/`Nat`
computation the kernel can evaluate inside `decide`.
-/

/-! ## Exact rational arithmetic (unnormalised fractions) -/

/-- An exact rational as an unnormalised fraction.  Every constructor used
below keeps `den` positive. -/
structure Q where
  num : Int
  den : Int
deriving DecidableEq

/-- Embed an integer. -/
def Q.ofInt (n : Int) : Q := ⟨n, 1⟩

/-- Addition. -/
def Q.add (a b : Q) : Q := ⟨a.num * b.den + b.num * a.den, a.den * b.den⟩

/-- Subtraction. -/
def Q.sub (a b : Q) : Q := ⟨a.num * b.den - b.num * a.den, a.den * b.den⟩

/-- Multiplication. -/
def Q.mul (a b : Q) : Q := ⟨a.num * b.num, a.den * b.den⟩

/-- Negation. -/
def Q.neg (a : Q) : Q := ⟨-a.num, a.den⟩

/-- Division by a positive natural. -/
def Q.divNat (a : Q) (m : Nat) : Q := ⟨a.num, a.den * m⟩

/-- Multiplication by `2^k` for `k : ℤ`. -/
def Q.mulPow2 (a : Q) (k : Int) : Q :=
  if 0 ≤ k then ⟨a.num * 2 ^ k.toNat, a.den⟩ else ⟨a.num, a.den * 2 ^ (-k).toNat⟩

/-- Absolute value. -/
def Q.abs (a : Q) : Q := if a.num < 0 then ⟨-a.num, a.den⟩ else a

/-- Order (for positive denominators), as a boolean. -/
def Q.le (a b : Q) : Bool := a.num * b.den ≤ b.num * a.den

/-- Strict order (for positive denominators), as a boolean. -/
def Q.lt (a b : Q) : Bool := a.num * b.den < b.num * a.den

/-- Floor to an integer (for positive denominators). -/
def Q.floor (a : Q) : Int := Int.fdiv a.num a.den

/-! ## Round-to-nearest-even -/

/-- `⌊log₂ n⌋` for naturals, by fuelled division (64-bit chunks keep the
number of reduction steps small). -/
def natLog2F : Nat → Nat → Nat
  | 0, _ => 0
  | f + 1, n =>
    if 2 ^ 64 ≤ n then natLog2F f (n / 2 ^ 64) + 64
    else if 2 ≤ n then natLog2F f (n / 2) + 1
    else 0

/-- `⌊log₂ n⌋` (0 for `n ≤ 1`). -/
def natLog2 (n : Nat) : Nat := natLog2F n n

/-- `⌊log₂ q⌋` for a positive rational. -/
def ratLog2 (q : Q) : Int :=
  let e0 : Int := (natLog2 q.num.toNat : Int) - (natLog2 q.den.toNat : Int)
  if Q.le (Q.mulPow2 (Q.ofInt 1) e0) q then e0 else e0 - 1

/-- Round a rational to an integer, ties to even. -/
def rnHalfEven (q : Q) : Int :=
  let f : Int := q.floor
  let r : Q := q.sub (Q.ofInt f)
  if r.lt ⟨1, 2⟩ then f
  else if Q.lt ⟨1, 2⟩ r then f + 1
  else if f % 2 = 0 then f else f + 1

/-- Round a rational to the nearest representable value of a binary
floating-point format with `mbits` fraction bits and minimal exponent
`emin` (value-level; no overflow clamping, which no use here can reach).
The rounding step is `2^(e-mbits)`, so dividing by it is `mulPow2`. -/
def roundFloatVal (mbits : Nat) (emin : Int) (q : Q) : Q :=
  if q.num = 0 then Q.ofInt 0
  else
    let e : Int := ratLog2 q.abs
    let e : Int := if e < emin then emin else e
    Q.mulPow2 (Q.ofInt (rnHalfEven (q.mulPow2 ((mbits : Int) - e)))) (e - (mbits : Int))

/-- Round a rational to the nearest `f64` value (exactly representable as a
rational). -/
def roundF64 (q : Q) : Q := roundFloatVal 52 (-1074) q

/-! ## IEEE-754 binary32 bit-pattern model -/

/-- An `f32` value, identified by its bit pattern.  Out-of-range `bits`
are normalised modulo `2^32` by every observer. -/
structure F32 where
  bits : Nat
deriving DecidableEq

/-- The bit pattern proper. -/
def F32.nbits (x : F32) : Nat := x.bits % 2 ^ 32

/-- Sign bit. -/
def F32.sign (x : F32) : Nat := x.nbits / 2 ^ 31

/-- Biased exponent field (8 bits). -/
def F32.expf (x : F32) : Nat := x.nbits / 2 ^ 23 % 2 ^ 8

/-- Fraction field (23 bits). -/
def F32.frac (x : F32) : Nat := x.nbits % 2 ^ 23

/-- `f32::is_nan`. -/
def F32.is_nan (x : F32) : Bool := x.expf = 255 && x.frac ≠ 0

/-- Infinity test (exponent field all ones, zero fraction). -/
def F32.is_inf (x : F32) : Bool := x.expf = 255 && x.frac = 0

/-- `f32::is_subnormal`. -/
def F32.is_subnormal (x : F32) : Bool := x.expf = 0 && x.frac ≠ 0

/-- `f32::is_sign_negative` (true for `-0.0` and negative NaNs as well). -/
def F32.is_sign_negative (x : F32) : Bool := x.sign = 1

/-- `f32::is_sign_positive`. -/
def F32.is_sign_positive (x : F32) : Bool := !x.is_sign_negative

/-- Exact rational value of a finite `f32`.  (For NaN/infinity patterns the
formula yields a rational of magnitude at least `2^105`, far outside every
finite `f32`; the verifier model never lets such junk values be accepted.) -/
def F32.toRat (x : F32) : Q :=
  let mag : Q :=
    if x.expf = 0 then Q.mulPow2 (Q.ofInt x.frac) (-149)
    else Q.mulPow2 (Q.ofInt (2 ^ 23 + x.frac)) ((x.expf : Int) - 150)
  if x.sign = 1 then mag.neg else mag

/-- `f32::NEG_INFINITY`. -/
def F32.NEG_INFINITY : F32 := ⟨0xFF800000⟩

/-- `f32::INFINITY`. -/
def F32.INFINITY : F32 := ⟨0x7F800000⟩

/-- `f32::NAN` (the quiet NaN pattern Rust uses for the constant). -/
def F32.NAN : F32 := ⟨0x7FC00000⟩

/-- `q as f32` (round to nearest even, overflow to infinity, signed zeros
for tiny magnitudes — matching Rust `f64 → f32` casts on the values that
reach it).  The `% 2^8` and `% 2^23` on the encoded fields never change the
value (the rounded mantissa always lies below `2^24` and the clamped
exponent within `[-126, 127]`); they make the field bounds syntactic. -/
def encF32 (q : Q) : F32 :=
  if q.num = 0 then ⟨0⟩
  else
    let sgn : Nat := if q.num < 0 then 1 else 0
    let a : Q := q.abs
    let e : Int := ratLog2 a
    let e : Int := if e < -126 then -126 else e
    let m : Int := rnHalfEven (a.mulPow2 (23 - e))
    let em : Int × Int := if m = 2 ^ 24 then (e + 1, 2 ^ 23) else (e, m)
    if 127 < em.1 then ⟨sgn * 2 ^ 31 + 255 * 2 ^ 23⟩
    else if em.2 < 2 ^ 23 then ⟨sgn * 2 ^ 31 + em.2.toNat % 2 ^ 23⟩
    else ⟨sgn * 2 ^ 31 + (em.1 + 127).toNat % 2 ^ 8 * 2 ^ 23 + (em.2 - 2 ^ 23).toNat % 2 ^ 23⟩

/-! ## The sine test (`src/testcase/sin.rs`) -/

/-- Modelled from the spec: `common::flush_to_zero_f32` lives in the absent
`common.rs`; per the spec's flush-to-zero rule it replaces a subnormal with
a zero of the same sign when the mode is enabled. -/
def flush_to_zero_f32 (x : F32) (ftz : Bool) : F32 :=
  if ftz && x.is_subnormal then ⟨x.sign * 2 ^ 31⟩ else x

/-- Truncated Taylor series of sine: `n` further terms, the current term
being `x^k / k!` (signed) with `k` odd. -/
def sinTerms (x : Q) : Nat → Nat → Q → Q
  | 0, _, _ => Q.ofInt 0
  | n + 1, k, term =>
    term.add (sinTerms x n (k + 2) (Q.divNat (Q.neg (term.mul (x.mul x))) ((k + 1) * (k + 2))))

/-- Taylor approximation of `sin x`, 12 terms (truncation error below
`x^25 / 25!`, far below `f64` precision throughout `[0, π/2]`). -/
def sinTaylor (x : Q) : Q := sinTerms x 12 1 x

/-- Modelled from the spec: `sin_host` (sin.rs line 109) widens the input
to `f64` (exact) and applies `f64::sin` from the Rust standard library,
which is not part of this repository.  It is modelled as the correctly
rounded `f64` sine; at the π/4 input used by the claims the host libm
result was checked to agree with correct rounding by a wide margin. -/
def sin_host (input : F32) : Q := roundF64 (sinTaylor input.toRat)

/-- `APPROX_TOLERANCE` (sin.rs line 27): the given decimal literal, as the
`f64` constant it denotes. -/
def APPROX_TOLERANCE : Q :=
  roundF64 ⟨51106141211332948885584179164092160363501768, 10 ^ 50⟩

/-- `sin_approx_special` (sin.rs lines 46-57).  Constant float patterns in
a Rust `match` compare by value, so `0.0` also matches `-0.0` (a case
already taken by the preceding arm). -/
def sin_approx_special (input : F32) : Option F32 :=
  if input.nbits = F32.NEG_INFINITY.nbits then some F32.NAN
  else if input.is_subnormal && input.is_sign_negative then some ⟨0x80000000⟩
  else if input.nbits = 0x80000000 then some ⟨0x80000000⟩
  else if input.nbits = 0 || input.nbits = 0x80000000 then some ⟨0⟩
  else if input.is_subnormal && input.is_sign_positive then some ⟨0⟩
  else if input.nbits = F32.INFINITY.nbits then some F32.NAN
  else if input.is_nan then some F32.NAN
  else none

/-- `Sin::host_verify` (sin.rs lines 41-80).  `Result<(), f32>` becomes
`Except F32 Unit`; `to_ne_bytes` equality is bit-pattern equality.  In the
approximate branch the code computes `|output − result_f32|` in `f64` and
compares it with the tolerance; a NaN or infinite operand makes that
comparison false, and on finite operands near the tolerance the `f64`
subtraction is exact, so it is modelled by the exact rational difference. -/
def Sin.host_verify (ftz : Bool) (input output : F32) : Except F32 Unit :=
  let input := flush_to_zero_f32 input ftz
  match sin_approx_special input with
  | some expected0 =>
    let expected := flush_to_zero_f32 expected0 ftz
    if (expected.is_nan && output.is_nan) || expected.nbits = output.nbits then .ok ()
    else .error expected
  | none =>
    let precise_result : Q := sin_host input
    let result_f32 : F32 := flush_to_zero_f32 (encF32 precise_result) ftz
    if output.is_nan || output.is_inf || result_f32.is_nan || result_f32.is_inf then
      .error (encF32 precise_result)
    else if Q.le (Q.abs (output.toRat.sub result_f32.toRat)) APPROX_TOLERANCE then .ok ()
    else .error (encF32 precise_result)

/-- The expected value the sine verifier measures `output` against (and
carries in a rejection): the special-table value after flushing, or the
host reference rounded to `f32`. -/
def Sin.expected_value (ftz : Bool) (input : F32) : F32 :=
  let input := flush_to_zero_f32 input ftz
  match sin_approx_special input with
  | some expected0 => flush_to_zero_f32 expected0 ftz
  | none => encF32 (sin_host input)

/-! ## The sine range enumerator (sin.rs lines 83-107) -/

/-- Bit pattern of `RANGE_MIN = 0f32`. -/
def RANGE_MIN_BITS : Nat := 0x00000000

/-- Bit pattern of `RANGE_MAX = f32::consts::FRAC_PI_2` (π/2 as `f32`). -/
def RANGE_MAX_BITS : Nat := 0x3FC90FDB

/-- Modelled from the spec: `common::MAX_NEGATIVE_SUBNORMAL` lives in the
absent `common.rs`; the spec's enumerator table names the minimal negative
subnormal among the guaranteed edge cases. -/
def MAX_NEGATIVE_SUBNORMAL : F32 := ⟨0x80000001⟩

/-- Modelled from the spec: `common::MAX_POSITIVE_SUBNORMAL` lives in the
absent `common.rs`; the spec's enumerator table names the minimal positive
subnormal among the guaranteed edge cases. -/
def MAX_POSITIVE_SUBNORMAL : F32 := ⟨0x00000001⟩

/-- `<Sin as RangeTest>::MAX_VALUE` (sin.rs lines 87-88). -/
def Sin.MAX_VALUE : Nat := RANGE_MAX_BITS - RANGE_MIN_BITS + 36

/-- `<Sin as RangeTest>::generate` (sin.rs lines 90-106): bit
reinterpretation on the continuous range, explicit edge-case table past its
end. -/
def Sin.generate (input : Nat) : F32 :=
  if RANGE_MAX_BITS < input then
    match input - RANGE_MAX_BITS with
    | 1 => F32.NEG_INFINITY
    | 2 => MAX_NEGATIVE_SUBNORMAL
    | 3 => ⟨0x80000000⟩
    | 4 => ⟨0x00000000⟩
    | 5 => MAX_POSITIVE_SUBNORMAL
    | 6 => F32.INFINITY
    | 7 => F32.NAN
    | _ => ⟨0x00000000⟩
  else ⟨(input + RANGE_MIN_BITS) % 2 ^ 32⟩

/-! ## Source generation for the Compiled (inline-assembly) backend
(`src/testcase/mod.rs` lines 61-163)

Strings are modelled as character lists, so the text transformations are
plain structural recursion. -/

/-- Characters of a string literal. -/
def str (s : String) : List Char := s.data

/-- `Vec::join` on strings: concatenate with a separator between elements. -/
def joinSep (sep : List Char) : List (List Char) → List Char
  | [] => []
  | [x] => x
  | x :: y :: xs => x ++ sep ++ joinSep sep (y :: xs)

/-- `str::replace`: left-to-right, non-overlapping replacement of every
occurrence of `pat` by `rep`. -/
def replaceList (pat rep : List Char) (s : List Char) : List Char :=
  match s with
  | [] => []
  | c :: rest =>
    if pat.isPrefixOf (c :: rest) ∧ pat ≠ [] then
      rep ++ replaceList pat rep ((c :: rest).drop pat.length)
    else
      c :: replaceList pat rep rest
termination_by s.length
decreasing_by
  · cases pat with
    | nil => exact absurd rfl (by tauto)
    | cons p ps => simp [List.length_drop]; omega
  · simp

/-- Strip one trailing carriage return. -/
def stripCr (l : List Char) : List Char :=
  if l.getLast? = some '\r' then l.dropLast else l

/-- `str::lines`: split at `'\n'`, strip a `'\r'` before each split point,
no trailing empty line for a trailing newline (and the final line keeps a
bare `'\r'`, as in Rust). -/
def rust_lines (s : List Char) : List (List Char) :=
  if s = [] then []
  else
    let line := s.takeWhile (fun c => c ≠ '\n')
    match h : s.dropWhile (fun c => c ≠ '\n') with
    | [] => [line]
    | _ :: r => stripCr line :: rust_lines r
termination_by s.length
decreasing_by
  have hle := (List.dropWhile_suffix (l := s) (fun c => c ≠ '\n')).length_le
  rw [h] at hle
  simp at hle ⊢
  omega

/-- The character-by-character statement of percent escaping: each `'%'`
becomes `"%%"`, all else is kept. -/
def escape_percent_spec : List Char → List Char
  | [] => []
  | c :: rest => (if c = '%' then ['%', '%'] else [c]) ++ escape_percent_spec rest

/-- A PTX opcode test's source ingredients (the `TestPtx` trait object:
header directives, instruction body, argument names in binding order). -/
structure TestPtx where
  header : List Char
  body : List Char
  args : List (List Char)

/-- `fmt_cuda_signature` (mod.rs lines 68-71). -/
def fmt_cuda_signature (args : List (List Char)) : List Char :=
  str ("extern \"C\" __global__ void run(")
    ++ joinSep (str (", ")) (args.map (fun a => str ("unsigned long long * ") ++ a))
    ++ str (")")

/-- `fmt_cuda_inline_ptx_params_load` (mod.rs lines 74-81): for the `i`-th
argument, declare an address register and `mov` positional operand `%i`
into it. -/
def fmt_cuda_inline_ptx_params_load (args : List (List Char)) : List Char :=
  (args.enum.map (fun ia =>
    str (".reg .u64 ") ++ ia.2 ++ str ("_addr;\n")
      ++ str ("mov.u64   ") ++ ia.2 ++ str ("_addr, %") ++ str (Nat.repr ia.1) ++ str (";\n"))).flatten

/-- `fmt_cuda_inline_ptx_params` (mod.rs lines 84-86): `"l"(arg)` operand
bindings, comma-separated. -/
def fmt_cuda_inline_ptx_params (args : List (List Char)) : List Char :=
  joinSep (str (", ")) (args.map (fun a => str ("\"l\"(") ++ a ++ str (")")))

/-- `ptx_to_inline` (mod.rs lines 89-108): escape `%`, prepend the operand
loads, wrap each line in quotes, and assemble the `asm` statement. -/
def ptx_to_inline (args : List (List Char)) (body : List Char) : List Char :=
  let body := replaceList (str ("%")) (str ("%%")) body
  let body := fmt_cuda_inline_ptx_params_load args ++ str ("\n") ++ body
  let body := joinSep (str ("    ")) ((rust_lines body).map (fun l => str ("\"") ++ l ++ str ("\"\n")))
  str ("asm(") ++ body ++ str ("    :: ") ++ fmt_cuda_inline_ptx_params args ++ str (");")

/-- The CUDA wrapper source handed to NVRTC (mod.rs lines 112-116). -/
def prepare_test_source_cuda (p : TestPtx) : List Char :=
  fmt_cuda_signature p.args ++ str (" \x7b\n") ++ ptx_to_inline p.args p.body ++ str ("\n\x7d")

/-- A process termination demanded by the code (`std::process::exit`). -/
structure ProcessExit where
  code : Nat
deriving DecidableEq

/-- The NVRTC build step of the Compiled fixture's `prepare_test_source`
(mod.rs lines 110-163).  The compiler collaborator is a function from
source text to either the PTX text or the failure pair (error string,
diagnostic log).  On failure the code prints the error and the log to
stderr and calls `std::process::exit(1)`; this is modelled as an
exceptional result carrying the exit code and the surfaced stderr lines. -/
def prepare_test_source_compiled (compile : List Char → Except (String × String) (List Char))
    (p : TestPtx) : Except (ProcessExit × List String) (List Char) :=
  match compile (prepare_test_source_cuda p) with
  | .error el =>
    .error (⟨1⟩, ["NVRTC error: " ++ el.1, "Compilation produced the following log:\n" ++ el.2])
  | .ok ptx => .ok ptx

/-- `TestError` (from the `test` module): the two per-test failure kinds,
with their user-visible payloads. -/
inductive TestError
  | Mismatch (input output expected : String)
  | Miscompile (name : String)
deriving DecidableEq

/-- Modelled from the spec: the per-test driver of the Compiled backend
(`run_range` lives in the absent `test.rs`).  Per §4.4 the source is
prepared and built first, and the domain scan runs only on a successfully
built program; `scan` abstracts everything after source preparation,
returning the test's result and the number of inputs evaluated. -/
def run_test_compiled (compile : List Char → Except (String × String) (List Char))
    (scan : List Char → Except TestError Unit × Nat) (p : TestPtx) :
    Except (ProcessExit × List String) (Except TestError Unit × Nat) :=
  match prepare_test_source_compiled compile p with
  | .error e => .error e
  | .ok ptx => .ok (scan ptx)

/-! ## The CLI driver loop (`src/main.rs` lines 40-83) -/

/-- A registered test: its name and the result its closure reports when
driven (`(t.test)(&cuda)`), modelled as data. -/
structure TestCase where
  name : String
  result : Except TestError Unit

/-- The parsed command line; a regex filter is modelled as the predicate it
decides on test names. -/
inductive Arguments
  | List
  | Run (filter : Option (String → Bool))

/-- `tests.sort_unstable_by_key(|t| t.name.clone())` (main.rs line 48):
sort ascending by name. -/
def sort_tests (tests : List TestCase) : List TestCase :=
  tests.mergeSort (fun a b => decide (a.name ≤ b.name))

/-- Restriction of the test list by the optional filter (main.rs 56-59). -/
def filter_tests (filter : Option (String → Bool)) (tests : List TestCase) : List TestCase :=
  match filter with
  | some re => tests.filter (fun t => re t.name)
  | none => tests

/-- Does a test result count towards the failure total (Mismatch or
Miscompile)? -/
def is_failure (t : TestCase) : Bool :=
  match t.result with
  | .error (TestError.Mismatch _ _ _) => true
  | .error (TestError.Miscompile _) => true
  | .ok _ => false

/-- The observable effects of `run`: printed lines, names of the tests
whose closure was invoked, and the returned failure count (which `main`
passes to `std::process::exit`). -/
structure RunResult where
  stdout : List String
  executed : List String
  failures : Nat

/-- The body of the reporting loop (main.rs lines 64-79): print the test's
line and bump the failure count on `Mismatch` or `Miscompile`. -/
def report_step (acc : List String × Nat) (t : TestCase) : List String × Nat :=
  match t.result with
  | .ok _ => (acc.1 ++ [t.name ++ ": OK"], acc.2)
  | .error (TestError.Mismatch i o e) =>
    (acc.1 ++ [t.name ++ ": FAIL: Input " ++ i ++ ", computed on GPU " ++ o
      ++ ", computed on CPU " ++ e], acc.2 + 1)
  | .error (TestError.Miscompile n) =>
    (acc.1 ++ [n ++ ": FAIL: Compilation mismatch"], acc.2 + 1)

/-- `run` (main.rs lines 45-83). -/
def run (args : Arguments) (tests0 : List TestCase) : RunResult :=
  let tests := sort_tests tests0
  match args with
  | .List => ⟨tests.map (fun t => t.name), [], 0⟩
  | .Run filter =>
    let tests := filter_tests filter tests
    let fold := tests.foldl report_step ([], 0)
    ⟨fold.1, tests.map (fun t => t.name), fold.2⟩

/-! ## The 16-bit shift tests (`src/testcase/shift.rs`) -/

/-- `Shl::host_verify` (shift.rs lines 30-38): expected is 0 for shifts of
16 or more, else the `u16` left shift (modelled with an explicit
`mod 2^16`). -/
def Shl.host_verify (input : Nat × Nat) (output : Nat) : Except Nat Unit :=
  let expected := if 16 ≤ input.2 then 0 else input.1 * 2 ^ input.2 % 2 ^ 16
  if expected = output then .ok () else .error expected

/-- The `i16` value of a 16-bit pattern (two's complement). -/
def i16val (bits : Nat) : Int :=
  if bits % 2 ^ 16 < 2 ^ 15 then (bits % 2 ^ 16 : Int) else (bits % 2 ^ 16 : Int) - 2 ^ 16

/-- `signed_shr` of the num crate: arithmetic (sign-extending) right
shift, i.e. floor division by `2^shift`. -/
def signed_shr (v : Int) (s : Nat) : Int := Int.fdiv v (2 ^ s)

/-- `Shr::<i16>::host_verify` (shift.rs lines 67-85, with `T::signed()`
true): shifts of 16 or more use shift 15. -/
def ShrS16.host_verify (input : Int × Nat) (output : Int) : Except Int Unit :=
  let expected := if 16 ≤ input.2 then signed_shr input.1 15 else signed_shr input.1 input.2
  if expected = output then .ok () else .error expected

/-- π/4 rounded to `f32`: the in-range, non-special input of the sine
scenario (its bit pattern is `generate`d at index `0x3F490FDB`). -/
def pi_4_f32 : F32 := ⟨0x3F490FDB⟩

deriving instance DecidableEq for Except

/-! ## Helper lemmas -/

theorem flush_false (x : F32) : flush_to_zero_f32 x false = x := by
  simp [flush_to_zero_f32]

theorem F32.is_nan_congr {a b : F32} (h : a.nbits = b.nbits) : a.is_nan = b.is_nan := by
  simp [F32.is_nan, F32.expf, F32.frac, h]

/-! ## C4, C5: shift scenarios -/

/-- **C4**: for the 16-bit left shift verifier, value `0x1234` with shift
16 expects 0, with shift 17 expects 0, and with shift 0 expects `0x1234`;
each of these inputs accepts exactly the expected output and rejects every
other output carrying that expected value. -/
theorem shl_b16_scenarios (out : Nat) :
    Shl.host_verify (0x1234, 16) out = (if out = 0 then .ok () else .error 0)
    ∧ Shl.host_verify (0x1234, 17) out = (if out = 0 then .ok () else .error 0)
    ∧ Shl.host_verify (0x1234, 0) out = (if out = 0x1234 then .ok () else .error 0x1234) := by
  refine ⟨?_, ?_, ?_⟩ <;>
  · simp only [Shl.host_verify]
    norm_num
    rcases eq_or_ne out 0 with h | h <;> rcases eq_or_ne out 0x1234 with h2 | h2 <;>
      simp_all <;> omega

/-- **C5**: for the signed 16-bit arithmetic right shift verifier, value
`0xFFFF` (−1 as `i16`) with shift 20 expects `0xFFFF` (−1), and value
`0x7FFF` with shift 20 expects `0x0000`; each of these inputs accepts
exactly the expected output and rejects every other output carrying that
expected value. -/
theorem shr_s16_scenarios (out : Int) :
    i16val 0xFFFF = -1
    ∧ ShrS16.host_verify (i16val 0xFFFF, 20) out
        = (if out = i16val 0xFFFF then .ok () else .error (i16val 0xFFFF))
    ∧ ShrS16.host_verify (i16val 0x7FFF, 20) out = (if out = 0 then .ok () else .error 0) := by
  have hv1 : i16val 0xFFFF = -1 := by decide
  have hv2 : i16val 0x7FFF = 32767 := by decide
  have h1 : signed_shr (-1) 15 = -1 := by decide
  have h2 : signed_shr 32767 15 = 0 := by decide
  refine ⟨hv1, ?_, ?_⟩
  · simp only [ShrS16.host_verify, hv1]
    norm_num [h1]
    rcases eq_or_ne out (-1) with h | h <;> simp [h, eq_comm]
  · simp only [ShrS16.host_verify, hv2]
    norm_num [h2]
    rcases eq_or_ne out 0 with h | h <;> simp [h, eq_comm]

/-! ## C10: the sine enumerator's edge-case table -/

/-- **C10**: `generate` is total on the 36 indices past the continuous
range's end (the bit pattern of π/2, which is where `MAX_VALUE` puts the
domain's end): offsets 1–7 map, in order, to negative infinity, the
negative subnormal edge case, negative zero, positive zero, the positive
subnormal edge case, positive infinity, and NaN; every remaining offset up
to 36 maps to positive zero, an input already produced by offset 4 and by
continuous index 0. -/
theorem sin_generate_edge_table :
    Sin.MAX_VALUE = RANGE_MAX_BITS + 36
    ∧ Sin.generate (RANGE_MAX_BITS + 1) = F32.NEG_INFINITY
    ∧ Sin.generate (RANGE_MAX_BITS + 2) = MAX_NEGATIVE_SUBNORMAL
    ∧ MAX_NEGATIVE_SUBNORMAL.is_subnormal = true
    ∧ MAX_NEGATIVE_SUBNORMAL.is_sign_negative = true
    ∧ Sin.generate (RANGE_MAX_BITS + 3) = ⟨0x80000000⟩
    ∧ Sin.generate (RANGE_MAX_BITS + 4) = ⟨0x00000000⟩
    ∧ Sin.generate (RANGE_MAX_BITS + 5) = MAX_POSITIVE_SUBNORMAL
    ∧ MAX_POSITIVE_SUBNORMAL.is_subnormal = true
    ∧ MAX_POSITIVE_SUBNORMAL.is_sign_positive = true
    ∧ Sin.generate (RANGE_MAX_BITS + 6) = F32.INFINITY
    ∧ Sin.generate (RANGE_MAX_BITS + 7) = F32.NAN
    ∧ F32.NAN.is_nan = true
    ∧ (∀ k, 8 ≤ k → k ≤ 36 → Sin.generate (RANGE_MAX_BITS + k) = ⟨0x00000000⟩)
    ∧ Sin.generate 0 = ⟨0x00000000⟩ := by
  refine ⟨by decide, by decide, by decide, by decide, by decide, by decide, by decide, by decide,
    by decide, by decide, by decide, by decide, by decide, ?_, by decide⟩
  intro k h8 _h36
  obtain ⟨m, rfl⟩ : ∃ m, k = m + 8 := ⟨k - 8, by omega⟩
  show Sin.generate (RANGE_MAX_BITS + (m + 8)) = ⟨0x00000000⟩
  rw [Sin.generate, if_pos (by omega), show RANGE_MAX_BITS + (m + 8) - RANGE_MAX_BITS = m + 8
    from by omega]
  rfl

/-- Witness for `sin_generate_edge_table`: a remaining offset (20) indeed
maps to positive zero. -/
theorem sin_generate_edge_table_witness : Sin.generate (RANGE_MAX_BITS + 20) = ⟨0x00000000⟩ :=
  (sin_generate_edge_table).2.2.2.2.2.2.2.2.2.2.2.2.2.1 20 (by decide) (by decide)

/-! ## C1: a compiler rejection in the Compiled backend -/

/-- **C1** (counterexample): when the compiler rejects a concrete test's
generated source, the Compiled flow does not report a `Miscompile` outcome
for the test and does not continue: it demands process exit with code 1
(after surfacing the error string and log), so the claimed downgrading to
a per-test, continuable `Miscompile` result does not happen. -/
theorem compiled_reject_exit_counterexample :
    run_test_compiled (fun _ => .error ("NVRTC_ERROR_COMPILATION", "1 error detected"))
        (fun _ => (.ok (), 0)) ⟨str (""), str ("bogus.op x;"), [str ("output")]⟩
      = .error (⟨1⟩, ["NVRTC error: NVRTC_ERROR_COMPILATION",
          "Compilation produced the following log:\n1 error detected"]) := by
  rfl

/-- **C1** (amended): for the Compiled backend, when the compiler rejects a
test's generated source, the compiler's error string and diagnostic log
are surfaced and the process then exits with code 1; no per-test outcome
(in particular no `Miscompile`) is produced, the run does not continue,
and zero inputs are evaluated for that test (the post-build scan stage is
never consulted). -/
theorem compiled_reject_surfaces_log_and_exits
    (compile : List Char → Except (String × String) (List Char))
    (scan : List Char → Except TestError Unit × Nat) (p : TestPtx)
    (err log : String) (h : compile (prepare_test_source_cuda p) = .error (err, log)) :
    run_test_compiled compile scan p
      = .error (⟨1⟩, ["NVRTC error: " ++ err,
          "Compilation produced the following log:\n" ++ log]) := by
  simp [run_test_compiled, prepare_test_source_compiled, h]

/-- Witness for `compiled_reject_surfaces_log_and_exits`. -/
theorem compiled_reject_surfaces_log_and_exits_witness :
    run_test_compiled (fun _ => .error ("E", "L")) (fun _ => (.ok (), 0))
        ⟨str (""), str ("x"), []⟩
      = .error (⟨1⟩, ["NVRTC error: " ++ "E",
          "Compilation produced the following log:\n" ++ "L"]) :=
  compiled_reject_surfaces_log_and_exits (fun _ => .error ("E", "L"))
    (fun _ => (.ok (), 0)) ⟨str (""), str ("x"), []⟩ "E" "L" rfl

/-! ## C3: sine special values -/

/-- **C3**: for the non-flush-to-zero sine test, input negative infinity
expects NaN — any NaN output bit pattern is accepted, everything else is
rejected carrying NaN; input negative zero expects negative zero, accepted
exactly on bit-for-bit equality; input the minimal positive subnormal
expects positive zero. -/
theorem sin_special_values_verify (out : F32) :
    Sin.host_verify false ⟨0xFF800000⟩ out = (if out.is_nan then .ok () else .error F32.NAN)
    ∧ Sin.host_verify false ⟨0x80000000⟩ out
        = (if out.nbits = 0x80000000 then .ok () else .error ⟨0x80000000⟩)
    ∧ Sin.host_verify false ⟨0x00000001⟩ out
        = (if out.nbits = 0x00000000 then .ok () else .error ⟨0x00000000⟩) := by
  have hs1 : sin_approx_special ⟨0xFF800000⟩ = some F32.NAN := by decide
  have hs2 : sin_approx_special ⟨0x80000000⟩ = some ⟨0x80000000⟩ := by decide
  have hs3 : sin_approx_special ⟨0x00000001⟩ = some ⟨0x00000000⟩ := by decide
  have hnanT : F32.NAN.is_nan = true := by decide
  refine ⟨?_, ?_, ?_⟩
  · simp only [Sin.host_verify, flush_false, hs1]
    by_cases hn : out.is_nan
    · simp [hn, hnanT]
    · have hne : ¬(F32.NAN.nbits = out.nbits) := fun he => by
        have hc := F32.is_nan_congr he
        rw [hnanT] at hc
        exact hn hc.symm
      simp [hn, hne, hnanT]
  · simp only [Sin.host_verify, flush_false, hs2]
    have hn2 : (⟨0x80000000⟩ : F32).is_nan = false := by decide
    have hb2 : (⟨0x80000000⟩ : F32).nbits = 0x80000000 := by decide
    rcases eq_or_ne out.nbits 0x80000000 with h | h <;> simp [hn2, hb2, h, eq_comm]
  · simp only [Sin.host_verify, flush_false, hs3]
    have hn3 : (⟨0x00000000⟩ : F32).is_nan = false := by decide
    have hb3 : (⟨0x00000000⟩ : F32).nbits = 0 := by decide
    rcases eq_or_ne out.nbits 0x00000000 with h | h <;> simp [hn3, hb3, h, eq_comm]

/-! ## C7: percent escaping and line wrapping -/

theorem replaceList_percent (s : List Char) :
    replaceList (str ("%")) (str ("%%")) s = escape_percent_spec s := by
  induction s using replaceList.induct (str ("%")) (str ("%%")) with
  | case1 => simp [replaceList, escape_percent_spec]
  | case2 c rest hpre ih =>
    rw [replaceList, if_pos hpre]
    have hc : c = '%' := by
      have := hpre.1
      simp [str, List.isPrefixOf] at this
      exact this.symm
    subst hc
    simp only [str, List.length_cons, List.length_nil, List.drop_succ_cons, List.drop_zero] at ih ⊢
    rw [escape_percent_spec]
    simp [ih]
  | case3 c rest hpre ih =>
    rw [replaceList, if_neg hpre]
    have hc : ¬(c = '%') := fun he => by
      apply hpre
      subst he
      simp [str, List.isPrefixOf]
    rw [escape_percent_spec]
    simp [hc, ih]

theorem escape_percent_spec_count (s : List Char) :
    (escape_percent_spec s).count '%' = 2 * s.count '%' := by
  induction s with
  | nil => rfl
  | cons c rest ih =>
    by_cases h : c = '%' <;>
      simp [escape_percent_spec, h, List.count_cons, List.count_append, ih] <;> omega

/-- **C7**: in the Compiled convention, the generated inline-assembly
statement is exactly the one built from the opcode body with every `'%'`
doubled (character by character) and with each line of the embedded
assembly text wrapped as an individual string literal; doubling means the
escaped body has twice as many `'%'` characters as the opcode body. -/
theorem ptx_to_inline_escapes_and_wraps (args : List (List Char)) (body : List Char) :
    ptx_to_inline args body
      = str ("asm(")
        ++ joinSep (str ("    "))
            ((rust_lines (fmt_cuda_inline_ptx_params_load args ++ str ("\n")
                ++ escape_percent_spec body)).map
              (fun l => str ("\"") ++ l ++ str ("\"\n")))
        ++ str ("    :: ") ++ fmt_cuda_inline_ptx_params args ++ str (");")
    ∧ (escape_percent_spec body).count '%' = 2 * body.count '%' :=
  ⟨by rw [ptx_to_inline, replaceList_percent], escape_percent_spec_count body⟩

/-! ## C8, C9: the driver loop -/

theorem report_step_counts (l : List TestCase) (acc : List String × Nat) :
    (l.foldl report_step acc).2 = acc.2 + l.countP is_failure := by
  induction l generalizing acc with
  | nil => simp
  | cons t rest ih =>
    rw [List.foldl_cons, ih]
    rcases t with ⟨n, r⟩
    rcases r with e | u
    · rcases e with ⟨i, o, ex⟩ | nm <;>
        simp [report_step, is_failure, List.countP_cons] <;> omega
    · simp [report_step, is_failure, List.countP_cons]

/-- **C8**: for the run subcommand, the returned failure count (which
`main` passes to `process::exit`) equals the number of executed tests
whose outcome is `Mismatch` or `Miscompile`, and is 0 when every executed
test passes. -/
theorem run_exit_counts_failures (tests0 : List TestCase) (filter : Option (String → Bool)) :
    (run (.Run filter) tests0).failures
        = (filter_tests filter (sort_tests tests0)).countP is_failure
    ∧ ((∀ t ∈ filter_tests filter (sort_tests tests0), is_failure t = false) →
        (run (.Run filter) tests0).failures = 0) := by
  have h1 : (run (.Run filter) tests0).failures
      = (filter_tests filter (sort_tests tests0)).countP is_failure := by
    simp [run, report_step_counts]
  refine ⟨h1, fun hall => ?_⟩
  rw [h1]
  exact List.countP_eq_zero.mpr (fun t ht => by simp [hall t ht])

/-- Witness for `run_exit_counts_failures`: one passing test, exit 0. -/
theorem run_exit_counts_failures_witness :
    (run (.Run none) [⟨"brev_b32", .ok ()⟩]).failures = 0 :=
  (run_exit_counts_failures [⟨"brev_b32", .ok ()⟩] none).2 (by
    intro t ht
    simp only [filter_tests, sort_tests, List.mem_mergeSort] at ht
    simp only [List.mem_singleton] at ht
    subst ht
    rfl)

/-- **C9**: the list subcommand prints exactly the registered test names,
one line per test, sorted ascending by name (and a permutation of the
registry), drives no test, and returns failure count 0 (so the process
exits with code 0). -/
theorem list_prints_sorted_names (tests0 : List TestCase) :
    (run .List tests0).stdout = (sort_tests tests0).map (fun t => t.name)
    ∧ List.Pairwise (fun a b : String => a ≤ b) (run .List tests0).stdout
    ∧ (run .List tests0).stdout.Perm (tests0.map (fun t => t.name))
    ∧ (run .List tests0).executed = []
    ∧ (run .List tests0).failures = 0 := by
  have hsorted : List.Pairwise (fun a b : TestCase => decide (a.name ≤ b.name) = true)
      (sort_tests tests0) := by
    apply List.sorted_mergeSort
    · intro a b c hab hbc
      simp only [decide_eq_true_eq] at *
      exact le_trans hab hbc
    · intro a b
      simp only [Bool.or_eq_true, decide_eq_true_eq]
      exact le_total a.name b.name
  refine ⟨rfl, ?_, ?_, rfl, rfl⟩
  · show List.Pairwise _ ((sort_tests tests0).map _)
    rw [List.pairwise_map]
    exact hsorted.imp (fun h => by simpa using h)
  · show ((sort_tests tests0).map _).Perm _
    exact (List.mergeSort_perm tests0 _).map _

/-! ## C2: the π/4 sine scenario -/

set_option maxRecDepth 8000
set_option maxHeartbeats 1000000

/-- **C2** (amended): at the in-range, non-special input π/4, the sine
verifier accepts a device output iff the output is finite (neither NaN nor
infinite) and its widened value differs from the host reference *rounded
to `f32`* (not from the `f64`-precise reference) by at most the documented
tolerance; every rejection carries that rounded reference as the expected
value. -/
theorem sin_pi4_verify (out : F32) :
    Sin.host_verify false pi_4_f32 out
      = if !out.is_nan && !out.is_inf
            && Q.le (Q.abs (out.toRat.sub ((encF32 (sin_host pi_4_f32)).toRat)))
                APPROX_TOLERANCE
        then .ok ()
        else .error (encF32 (sin_host pi_4_f32)) := by
  have hspec : sin_approx_special pi_4_f32 = none := by decide
  have hnan : (encF32 (sin_host pi_4_f32)).is_nan = false := by decide
  have hinf : (encF32 (sin_host pi_4_f32)).is_inf = false := by decide
  simp only [Sin.host_verify, flush_false, hspec, hnan, hinf]
  cases h1 : out.is_nan <;> cases h2 : out.is_inf <;> simp [h1, h2]

/-- **C2** (counterexample): at π/4 the device output with bits
`0x3F3504FC` lies within the documented tolerance of the precise host
reference `sin_host`, yet the verifier rejects it — the code measures
against the reference rounded to `f32` (bits `0x3F3504F3`), which it
carries as the expected value. -/
theorem sin_pi4_precise_reference_counterexample :
    Q.le (Q.abs ((F32.toRat ⟨0x3F3504FC⟩).sub (sin_host pi_4_f32))) APPROX_TOLERANCE = true
    ∧ Sin.host_verify false pi_4_f32 ⟨0x3F3504FC⟩ = .error ⟨0x3F3504F3⟩ := by
  exact ⟨by decide, by decide⟩


theorem is_nan_of_fields (s ef fr : Nat) (hs : s ≤ 1) (hef : ef ≤ 255) (hfr : fr < 2 ^ 23)
    (hne : ef ≠ 255 ∨ fr = 0) :
    (F32.mk (s * 2 ^ 31 + ef * 2 ^ 23 + fr)).is_nan = false := by
  simp only [F32.is_nan, F32.expf, F32.frac, F32.nbits, Bool.and_eq_false_iff,
    decide_eq_false_iff_not]
  omega

theorem encF32_not_nan (q : Q) : (encF32 q).is_nan = false := by
  rw [encF32]
  by_cases h0 : q.num = 0
  · rw [if_pos h0]; decide
  rw [if_neg h0]
  simp only []
  set sgn : Nat := if q.num < 0 then 1 else 0 with hsgn
  have hs : sgn ≤ 1 := by rw [hsgn]; split <;> omega
  set e1 : Int := ratLog2 q.abs with he1
  set e2 : Int := if e1 < -126 then -126 else e1 with he2
  have he2b : -126 ≤ e2 := by rw [he2]; split <;> omega
  set m : Int := rnHalfEven (q.abs.mulPow2 (23 - e2)) with hm
  set em : Int × Int := if m = 2 ^ 24 then (e2 + 1, 2 ^ 23) else (e2, m) with hem
  have hem1 : -126 ≤ em.1 := by rw [hem]; split <;> simp <;> omega
  split
  · have h : sgn * 2 ^ 31 + 255 * 2 ^ 23 = sgn * 2 ^ 31 + 255 * 2 ^ 23 + 0 := by omega
    rw [h]
    exact is_nan_of_fields sgn 255 0 hs (by omega) (by omega) (Or.inr rfl)
  next hle =>
    split
    · have h : sgn * 2 ^ 31 + em.2.toNat % 2 ^ 23
          = sgn * 2 ^ 31 + 0 * 2 ^ 23 + em.2.toNat % 2 ^ 23 := by omega
      rw [h]
      exact is_nan_of_fields sgn 0 (em.2.toNat % 2 ^ 23) hs (by omega)
        (Nat.mod_lt _ (by omega)) (Or.inl (by omega))
    · exact is_nan_of_fields sgn ((em.1 + 127).toNat % 2 ^ 8) ((em.2 - 2 ^ 23).toNat % 2 ^ 23)
        hs (by omega) (Nat.mod_lt _ (by omega)) (Or.inl (by omega))

theorem sin_verify_nan_semantics (ftz : Bool) (input output : F32) :
    ((Sin.expected_value ftz input).is_nan = true →
      (Sin.host_verify ftz input output = .ok () ↔ output.is_nan = true))
    ∧ ((Sin.expected_value ftz input).is_nan = false → output.is_nan = true →
      Sin.host_verify ftz input output = .error (Sin.expected_value ftz input)) := by
  unfold Sin.host_verify Sin.expected_value
  simp only []
  cases hsp : sin_approx_special (flush_to_zero_f32 input ftz) with
  | some e =>
    dsimp only
    constructor
    · intro hnan
      constructor
      · intro hok
        by_cases hn2 : output.is_nan = true
        · exact hn2
        · by_cases hq : (flush_to_zero_f32 e ftz).nbits = output.nbits
          · rw [← F32.is_nan_congr hq, hnan]
          · rw [if_neg (by simp [hn2, hq])] at hok
            exact absurd hok (by simp)
      · intro honan
        rw [if_pos (by simp [hnan, honan])]
    · intro hnotnan houtnan
      rw [if_neg]
      intro hcond
      rcases (by simpa using hcond : ((flush_to_zero_f32 e ftz).is_nan = true
          ∧ output.is_nan = true) ∨ (flush_to_zero_f32 e ftz).nbits = output.nbits) with h | h
      · rw [hnotnan] at h
        exact Bool.false_ne_true h.1
      · rw [F32.is_nan_congr h, houtnan] at hnotnan
        exact absurd hnotnan (by simp)
  | none =>
    dsimp only
    constructor
    · intro hnan
      rw [encF32_not_nan] at hnan
      exact absurd hnan (by simp)
    · intro _ houtnan
      rw [if_pos (by simp [houtnan])]

/-- Witness for `sin_verify_nan_semantics`: at input −∞ the expected value
is NaN, and a NaN output with a different bit pattern is accepted. -/
theorem sin_verify_nan_semantics_witness :
    (Sin.expected_value false ⟨0xFF800000⟩).is_nan = true
    ∧ Sin.host_verify false ⟨0xFF800000⟩ ⟨0x7FC00001⟩ = .ok () :=
  ⟨by decide, ((sin_verify_nan_semantics false ⟨0xFF800000⟩ ⟨0x7FC00001⟩).1 (by decide)).mpr
    (by decide)⟩
